import Mathlib

/-!
Verification development for the skill execution engine of the thulp
repository (crate thulp-skills, with tool types from thulp-core).

The embedding models:
  - JSON values (serde_json::Value) as the inductive type Value, with strings
    as lists of characters and numbers as integers;
  - durations as natural numbers counting nanoseconds;
  - the variable substitution of DefaultSkillExecutor::substitute_value;
  - the retry policy of retry.rs (calculate_delay, is_error_retryable);
  - the executor control flow of default_executor.rs (execute, execute_step,
    execute_steps, execute_step_with_retry_timeout), with the Transport and
    the passage of real time abstracted as oracles: each tool call is given
    a duration and an outcome by the oracle, and the skill-level timeout race
    is modelled by an optional interruption point (the event index at which
    the surrounding timeout fires), since wall-clock time is not observable
    in a pure model.  Lifecycle hooks are modelled as an emitted event trace.
-/

/-- Rust strings are modelled as lists of characters. -/
abbrev Str := List Char

/-- Shorthand turning a Lean string literal into the model string type. -/
def sd (s : String) : Str := s.data

/-- Whitespace test used by trimming.  Rust str::trim uses Unicode
whitespace; the standard character class here covers the cases relevant to
this development. -/
def isWs (c : Char) : Bool := c.isWhitespace

/-- Model of str::trim: drop whitespace from both ends. -/
def trimL (s : Str) : Str :=
  ((s.dropWhile isWs).reverse.dropWhile isWs).reverse

/-- Model of str::starts_with for string patterns. -/
def hasStart : Str → Str → Bool
  | [], _ => true
  | _ :: _, [] => false
  | p :: ps, c :: cs => p == c && hasStart ps cs

/-- Model of str::ends_with for string patterns. -/
def hasEnd (pat s : Str) : Bool := hasStart pat.reverse s.reverse

/-- Model of str::contains for string patterns. -/
def containsSub (pat s : Str) : Bool :=
  hasStart pat s ||
    match s with
    | [] => false
    | _ :: cs => containsSub pat cs

/-- Fuel-driven worker for replaceSub.  The fuel starts at the length of the
subject string and bounds the recursion; the fuel-zero arm is unreachable
because the empty-subject arm is matched first and fuel never drops below
the subject length. -/
def replaceSubF (pat rep : Str) : Nat → Str → Str
  | _, [] => []
  | 0, s => s
  | fuel + 1, c :: cs =>
      if pat ≠ [] ∧ hasStart pat (c :: cs) then
        rep ++ replaceSubF pat rep fuel (List.drop (pat.length - 1) cs)
      else
        c :: replaceSubF pat rep fuel cs

/-- Model of str::replace: replace every non-overlapping occurrence of pat,
scanning left to right, without rescanning replacement text.  The source
never calls replace with an empty pattern (placeholders have length at least
four), so the behaviour on an empty pattern (identity here, interleaving in
Rust) is irrelevant to this development. -/
def replaceSub (pat rep s : Str) : Str := replaceSubF pat rep s.length s

/-- Model of str::to_lowercase, character by character.  Rust performs full
Unicode lowercasing; the per-character map agrees with it on the ASCII
vocabularies used by the retry classifier. -/
def toLowerStr (s : Str) : Str := s.map Char.toLower

/-- JSON values, modelling serde_json::Value.  Numbers are modelled as
integers (the claims under study never involve floating point) and objects
as association lists in iteration order. -/
inductive Value where
  | null : Value
  | bool (b : Bool) : Value
  | num (n : Int) : Value
  | str (s : Str) : Value
  | arr (xs : List Value) : Value
  | obj (kvs : List (Str × Value)) : Value

instance : Inhabited Value := ⟨Value.null⟩

/-- Decimal rendering of an integer, as produced by the Rust Display
implementation for i64. -/
def intStr (n : Int) : Str := (toString n).data

/-- Decimal rendering of a natural number. -/
def natStr (n : Nat) : Str := (toString n).data

/-- Lower-case hexadecimal digit, as used by the serde_json escaper. -/
def hexDigit (n : Nat) : Char :=
  if n < 10 then Char.ofNat (48 + n) else Char.ofNat (87 + n)

/-- JSON string escaping as performed by serde_json: quote and backslash are
escaped, control characters use the short escapes or a u-escape. -/
def escapeChar (c : Char) : Str :=
  if c = '"' then ['\\', '"']
  else if c = '\\' then ['\\', '\\']
  else if c = '\x08' then ['\\', 'b']
  else if c = '\x09' then ['\\', 't']
  else if c = '\x0a' then ['\\', 'n']
  else if c = '\x0c' then ['\\', 'f']
  else if c = '\x0d' then ['\\', 'r']
  else if c.toNat < 32 then
    ['\\', 'u', '0', '0', hexDigit (c.toNat / 16), hexDigit (c.toNat % 16)]
  else [c]

/-- Escape a whole string for JSON output. -/
def escStr (s : Str) : Str := (s.map escapeChar).flatten

mutual

/-- Compact JSON serialization, modelling serde_json::to_string on a Value.
On JSON values that serializer is infallible. -/
def serializeValue : Value → Str
  | .null => sd "null"
  | .bool true => sd "true"
  | .bool false => sd "false"
  | .num n => intStr n
  | .str s => '"' :: (escStr s ++ ['"'])
  | .arr xs => '[' :: (serializeArr xs ++ [']'])
  | .obj kvs => '{' :: (serializeObj kvs ++ ['}'])

/-- Serialize array elements, comma separated. -/
def serializeArr : List Value → Str
  | [] => []
  | [v] => serializeValue v
  | v :: vs => serializeValue v ++ (',' :: serializeArr vs)

/-- Serialize object entries, comma separated. -/
def serializeObj : List (Str × Value) → Str
  | [] => []
  | [(k, v)] => ('"' :: (escStr k ++ ['"', ':'])) ++ serializeValue v
  | (k, v) :: kvs =>
      ('"' :: (escStr k ++ ['"', ':'])) ++ serializeValue v ++ (',' :: serializeObj kvs)

end

/-- Association-list lookup, modelling HashMap::get.  Maps built by this
development carry at most one binding per key. -/
def lookupA (m : List (Str × Value)) (k : Str) : Option Value :=
  match m with
  | [] => none
  | (k', v) :: rest => if k' = k then some v else lookupA rest k

/-- Association-list insert, modelling HashMap::insert (overwriting). -/
def mapInsert (m : List (Str × Value)) (k : Str) (v : Value) : List (Str × Value) :=
  (k, v) :: m.filter (fun p => p.1 ≠ k)

/-- The placeholder text for a variable key: two opening braces, the key,
two closing braces.  Models the format call at line 140 of
default_executor.rs. -/
def placeholder (key : Str) : Str := '{' :: '{' :: (key ++ ['}', '}'])

/-- Display form of a bound value used during textual interpolation,
modelling lines 143 to 154 of default_executor.rs: strings verbatim, null,
booleans and numbers via their canonical text, composite values via their
JSON serialization. -/
def displayText : Value → Str
  | .str s => s
  | .null => sd "null"
  | .bool b => if b then sd "true" else sd "false"
  | .num n => intStr n
  | v => serializeValue v

/-- The whole-string placeholder resolution of substitute_value (lines 124
to 135 of default_executor.rs): if the trimmed string starts with two
opening braces and ends with two closing braces, and the inner text contains
neither brace pair, look the trimmed inner text up in the vars map. -/
def rawResolve (vars : List (Str × Value)) (s : Str) : Option Value :=
  let trimmed := trimL s
  if hasStart ['{', '{'] trimmed ∧ hasEnd ['}', '}'] trimmed then
    let inner := (trimmed.drop 2).take (trimmed.length - 4)
    if containsSub ['{', '{'] inner = false ∧ containsSub ['}', '}'] inner = false then
      lookupA vars (trimL inner)
    else none
  else none

/-- The textual interpolation of substitute_value (lines 137 to 158 of
default_executor.rs): for each bound variable whose placeholder occurs in
the accumulated string, replace every occurrence by the display form. -/
def interpolate (vars : List (Str × Value)) (s : Str) : Str :=
  vars.foldl
    (fun result kv =>
      let ph := placeholder kv.1
      if containsSub ph result then replaceSub ph (displayText kv.2) result
      else result)
    s

/-- The string case of substitute_value: whole-placeholder raw resolution
first, otherwise interpolation.  The only error path of the source (a
serialization failure) cannot occur on JSON values, so the model is total. -/
def substString (vars : List (Str × Value)) (s : Str) : Value :=
  match rawResolve vars s with
  | some v => v
  | none => .str (interpolate vars s)

mutual

/-- Model of DefaultSkillExecutor::substitute_value (lines 117 to 177 of
default_executor.rs): strings go through substString, arrays and objects
recurse over every element and entry, other scalars pass through. -/
def substituteValue (vars : List (Str × Value)) : Value → Value
  | .null => .null
  | .bool b => .bool b
  | .num n => .num n
  | .str s => substString vars s
  | .arr xs => .arr (substituteList vars xs)
  | .obj kvs => .obj (substituteObj vars kvs)

/-- Recursion of substitute_value over array elements. -/
def substituteList (vars : List (Str × Value)) : List Value → List Value
  | [] => []
  | v :: vs => substituteValue vars v :: substituteList vars vs

/-- Recursion of substitute_value over object entries. -/
def substituteObj (vars : List (Str × Value)) : List (Str × Value) → List (Str × Value)
  | [] => []
  | (k, v) :: kvs => (k, substituteValue vars v) :: substituteObj vars kvs

end

/-! Durations.  The source uses std::time::Duration; the model counts
nanoseconds as a natural number.  Duration arithmetic in the source
saturates at a maximum far above every configured bound, and the retry
delay is always capped by min against max_delay, so the unbounded model
produces the same observable values. -/

/-- Duration::from_millis. -/
def durFromMillis (m : Nat) : Nat := m * 1000000

/-- Duration::from_secs. -/
def durFromSecs (s : Nat) : Nat := s * 1000000000

/-- Duration::as_millis. -/
def durAsMillis (d : Nat) : Nat := d / 1000000

/-- Backoff strategies of config.rs. -/
inductive BackoffStrategy where
  | fixed : BackoffStrategy
  | exponential : BackoffStrategy
  | exponentialJitter : BackoffStrategy
  deriving DecidableEq

/-- Retryable error categories of config.rs. -/
inductive RetryableError where
  | network : RetryableError
  | rateLimit : RetryableError
  | timeout : RetryableError
  | serverError : RetryableError
  | all : RetryableError
  deriving DecidableEq, BEq

/-- Action on timeout, from config.rs.  The third variant is named Partial
in the source. -/
inductive TimeoutAction where
  | fail : TimeoutAction
  | skip : TimeoutAction
  | partRes : TimeoutAction
  deriving DecidableEq

/-- Timeout configuration of config.rs. -/
structure TimeoutConfig where
  skill_timeout : Nat
  step_timeout : Nat
  tool_timeout : Nat
  timeout_action : TimeoutAction

/-- Retry configuration of config.rs. -/
structure RetryConfig where
  max_retries : Nat
  initial_delay : Nat
  max_delay : Nat
  backoff : BackoffStrategy
  retryable_errors : List RetryableError

/-- Default for TimeoutConfig: 300s skill, 60s step, 30s tool, Fail. -/
def defaultTimeoutConfig : TimeoutConfig :=
  ⟨durFromSecs 300, durFromSecs 60, durFromSecs 30, .fail⟩

/-- Default for RetryConfig: 3 retries, 100ms initial, 10s max,
exponential jitter, network, rate limit and timeout retryable. -/
def defaultRetryConfig : RetryConfig :=
  ⟨3, durFromMillis 100, durFromSecs 10, .exponentialJitter,
    [.network, .rateLimit, .timeout]⟩

/-- Combined execution configuration of config.rs. -/
structure ExecutionConfig where
  timeout : TimeoutConfig
  retry : RetryConfig

/-- Default execution configuration. -/
def defaultExecutionConfig : ExecutionConfig :=
  ⟨defaultTimeoutConfig, defaultRetryConfig⟩

/-- Model of calculate_delay (lines 145 to 166 of retry.rs).  The attempt
exponent is cast from usize to u32 (truncation modulo two to the 32) and the
two to the power computation uses u32 saturating_pow, which saturates at the
maximal u32 once the exponent reaches 32.  The extra argument jitterDraw
models the random draw of fastrand inside the jitter branch (taken modulo
the jitter range); the source draws it internally. -/
def calculate_delay (config : RetryConfig) (attempt : Nat) (jitterDraw : Nat) : Nat :=
  let base_delay :=
    match config.backoff with
    | .fixed => config.initial_delay
    | .exponential =>
        let e := (attempt - 1) % 2 ^ 32
        let multiplier := if e < 32 then 2 ^ e else 2 ^ 32 - 1
        config.initial_delay * multiplier
    | .exponentialJitter =>
        let e := (attempt - 1) % 2 ^ 32
        let multiplier := if e < 32 then 2 ^ e else 2 ^ 32 - 1
        let base := config.initial_delay * multiplier
        let jitter_range := durAsMillis base / 2
        let jitter := if jitter_range > 0 then jitterDraw % jitter_range else 0
        base + durFromMillis jitter
  min base_delay config.max_delay

/-- Model of is_error_retryable (lines 169 to 218 of retry.rs): the All
category short-circuits, otherwise the lowercased message is classified by
substring vocabularies, a match counting only when its category is
enabled. -/
def is_error_retryable (error : Str) (config : RetryConfig) : Bool :=
  if config.retryable_errors.contains .all then true
  else
    let msg := toLowerStr error
    if config.retryable_errors.contains .rateLimit &&
        (containsSub (sd "rate limit") msg || containsSub (sd "429") msg ||
         containsSub (sd "too many requests") msg) then true
    else if config.retryable_errors.contains .timeout &&
        (containsSub (sd "timeout") msg || containsSub (sd "timed out") msg) then true
    else if config.retryable_errors.contains .serverError &&
        (containsSub (sd "500") msg || containsSub (sd "502") msg ||
         containsSub (sd "503") msg || containsSub (sd "504") msg ||
         containsSub (sd "internal server error") msg ||
         containsSub (sd "bad gateway") msg ||
         containsSub (sd "service unavailable") msg) then true
    else if config.retryable_errors.contains .network &&
        (containsSub (sd "connection") msg || containsSub (sd "network") msg ||
         containsSub (sd "dns") msg || containsSub (sd "resolve") msg ||
         containsSub (sd "unreachable") msg) then true
    else false

/-! Tool types from thulp-core (tool.rs) and skill types from
thulp-skills (lib.rs, executor.rs). -/

/-- The result of a tool execution (ToolResult in tool.rs). -/
structure ToolResult where
  success : Bool
  data : Option Value
  error : Option Str
  duration_ms : Option Nat

instance : Inhabited ToolResult := ⟨⟨false, none, none, none⟩⟩

/-- ToolResult::success. -/
def toolSuccess (data : Value) : ToolResult := ⟨true, some data, none, none⟩

/-- ToolResult::failure. -/
def toolFailure (error : Str) : ToolResult := ⟨false, none, some error, none⟩

/-- ToolResult::is_success. -/
def ToolResult.is_success (r : ToolResult) : Bool := r.success

/-- A tool invocation request (ToolCall in tool.rs). -/
structure ToolCall where
  tool : Str
  arguments : Value

/-- A step of a skill (SkillStep in lib.rs).  The per-step timeout override
is in seconds, as in the source. -/
structure SkillStep where
  name : Str
  tool : Str
  arguments : Value
  continue_on_error : Bool
  timeout_secs : Option Nat
  max_retries : Option Nat

instance : Inhabited SkillStep := ⟨⟨[], [], .null, false, none, none⟩⟩

/-- A skill definition (Skill in lib.rs). -/
structure Skill where
  name : Str
  description : Str
  inputs : List Str
  steps : List SkillStep

/-- Errors of skill execution (SkillError in lib.rs). -/
inductive SkillError where
  | execution (msg : Str) : SkillError
  | notFound (name : Str) : SkillError
  | invalidConfig (msg : Str) : SkillError
  | stepTimeout (step : Str) (duration : Nat) : SkillError
  | skillTimeout (duration : Nat) : SkillError
  | retryExhausted (step : Str) (attempts : Nat) (message : Str) : SkillError
  deriving DecidableEq

/-- Result of executing a single step (StepResult in executor.rs).  The
wall-clock duration_ms measurement is abstracted as zero in this model; no
claim under study depends on it. -/
structure StepResult where
  step_name : Str
  success : Bool
  output : Option Value
  error : Option Str
  duration_ms : Nat
  retry_attempts : Nat

/-- StepResult::failure. -/
def StepResult.failure (step_name : Str) (error : Str) (duration_ms : Nat) : StepResult :=
  ⟨step_name, false, none, some error, duration_ms, 0⟩

/-- Result of executing a skill (SkillResult in lib.rs). -/
structure SkillResult where
  success : Bool
  step_results : List (Str × ToolResult)
  output : Option Value
  error : Option Str

/-- Execution context (ExecutionContext in executor.rs), with the maps
modelled as association lists carrying one binding per key. -/
structure ExecutionContext where
  inputs : List (Str × Value)
  outputs : List (Str × Value)
  config : ExecutionConfig
  metadata : List (Str × Value)

/-- ExecutionContext::set_output. -/
def setOutput (ctx : ExecutionContext) (step_name : Str) (v : Value) : ExecutionContext :=
  { ctx with outputs := mapInsert ctx.outputs step_name v }

/-- ExecutionContext::variables: inputs merged with outputs, outputs winning
ties.  The HashMap iteration order of the source is unspecified; this model
fixes the order with outputs first. -/
def ctxVariables (ctx : ExecutionContext) : List (Str × Value) :=
  ctx.outputs ++ ctx.inputs.filter (fun p => (lookupA ctx.outputs p.1).isNone)

/-- Rendering of a SkillError to text, modelling the thiserror Display
implementations in lib.rs.  Durations are rendered as a nanosecond count
(the Rust Debug formatting of Duration is more elaborate; no claim depends
on the exact text). -/
def durStr (d : Nat) : Str := natStr d ++ sd "ns"

/-- The apostrophe character used in the error messages. -/
def apos : Char := Char.ofNat 39

/-- Display text of a SkillError. -/
def errText : SkillError → Str
  | .execution m => sd "Execution error: " ++ m
  | .notFound n => sd "Skill not found: " ++ n
  | .invalidConfig m => sd "Invalid configuration: " ++ m
  | .stepTimeout step d =>
      sd "Step " ++ (apos :: step) ++ (apos :: sd " timed out after ") ++ durStr d
  | .skillTimeout d => sd "Skill timed out after " ++ durStr d
  | .retryExhausted step a m =>
      sd "Step " ++ (apos :: step) ++ (apos :: sd " failed after ") ++ natStr a ++
        sd " attempts: " ++ m

/-! The executor (default_executor.rs).  The Transport and the clock are
modelled by an oracle: for a step index, an attempt number and the tool
call, the oracle yields the duration the call takes and its outcome.  A
call completes within a budget exactly when its duration is at most the
budget (tokio timeout polls the inner future first). -/

/-- Behaviour of one transport call: how long it runs and what it returns.
An error outcome carries the display text of the transport error. -/
structure CallBehaviour where
  duration : Nat
  outcome : Except Str ToolResult

/-- Events emitted by the retry loop (the on_retry and on_timeout hook
calls of execute_step_with_retry_timeout). -/
inductive RetryEvent where
  | retry (step : Str) (attempt : Nat) (msg : Str) : RetryEvent
  | timeoutHook (step : Str) (duration_ms : Nat) : RetryEvent

/-- Lifecycle hook invocations, recorded as a trace. -/
inductive HookEvent where
  | beforeSkill (skill : Str) : HookEvent
  | afterSkill (skill : Str) (result : SkillResult) : HookEvent
  | beforeStep (index : Nat) (step : Str) : HookEvent
  | afterStep (index : Nat) (step : Str) (result : StepResult) : HookEvent
  | onRetry (step : Str) (attempt : Nat) (msg : Str) : HookEvent
  | onTimeout (step : Str) (duration_ms : Nat) : HookEvent
  | onError (e : SkillError) : HookEvent

/-- Injection of retry-loop events into the hook trace. -/
def RetryEvent.toHook : RetryEvent → HookEvent
  | .retry s a m => .onRetry s a m
  | .timeoutHook s d => .onTimeout s d

/-- Fuel-driven worker for the attempt loop of
execute_step_with_retry_timeout (lines 180 to 261 of default_executor.rs).
One invocation models one loop iteration at the given (already incremented)
attempt count.  Of the step the source loop only ever reads the name (for
hook calls and error values), so the model takes the name directly.  The
fuel equals max_retries plus one minus the attempt count; the fuel-zero
arms are unreachable because the exhaustion guards above them fire first,
and exist only to make the recursion structural. -/
def retryLoopAux (b : Nat → ToolCall → CallBehaviour) (tool_call : ToolCall)
    (step_name : Str) (timeout : Nat) (retry_config : RetryConfig) :
    Nat → Nat → List RetryEvent × Except SkillError (ToolResult × Nat)
  | fuel, attempts =>
    let beh := b attempts tool_call
    if beh.duration ≤ timeout then
      match beh.outcome with
      | .ok tool_result => ([], .ok (tool_result, attempts - 1))
      | .error error_msg =>
          if attempts > retry_config.max_retries ∨
              is_error_retryable error_msg retry_config = false then
            ([], .error (.retryExhausted step_name attempts error_msg))
          else
            match fuel with
            | 0 => ([], .error (.retryExhausted step_name attempts error_msg))
            | f + 1 =>
                let r := retryLoopAux b tool_call step_name timeout retry_config f (attempts + 1)
                (RetryEvent.retry step_name attempts error_msg :: r.1, r.2)
    else
      let ev0 := RetryEvent.timeoutHook step_name (durAsMillis timeout)
      if attempts > retry_config.max_retries ∨
          retry_config.retryable_errors.contains .timeout = false then
        ([ev0], .error (.stepTimeout step_name timeout))
      else
        match fuel with
        | 0 => ([ev0], .error (.stepTimeout step_name timeout))
        | f + 1 =>
            let r := retryLoopAux b tool_call step_name timeout retry_config f (attempts + 1)
            (ev0 :: RetryEvent.retry step_name attempts (sd "timeout") :: r.1, r.2)

/-- The attempt loop of execute_step_with_retry_timeout, entered at the
given attempt count (the executor enters it at one). -/
def retryLoop (b : Nat → ToolCall → CallBehaviour) (tool_call : ToolCall)
    (step_name : Str) (timeout : Nat) (retry_config : RetryConfig) (attempts : Nat) :
    List RetryEvent × Except SkillError (ToolResult × Nat) :=
  retryLoopAux b tool_call step_name timeout retry_config
    (retry_config.max_retries + 1 - attempts) attempts

/-- The shared first half of a step execution (lines 334 to 371 and 431 to
466 of default_executor.rs): resolve the effective timeout (step override
in seconds, else the configured step timeout) and the effective retry count
(step override, else the configured count), substitute variables into the
arguments, build the tool call and run the attempt loop. -/
def execOneStep (b : Nat → ToolCall → CallBehaviour) (config : ExecutionConfig)
    (step : SkillStep) (ctx : ExecutionContext) :
    List RetryEvent × Except SkillError (ToolResult × Nat) :=
  let step_timeout :=
    match step.timeout_secs with
    | some s => durFromSecs s
    | none => config.timeout.step_timeout
  let max_retries := step.max_retries.getD config.retry.max_retries
  let step_retry_config := { config.retry with max_retries := max_retries }
  let prepared_args := substituteValue (ctxVariables ctx) step.arguments
  let tool_call : ToolCall := ⟨step.tool, prepared_args⟩
  retryLoop b tool_call step.name step_timeout step_retry_config 1

/-- Model of the trait method DefaultSkillExecutor::execute_step (lines 329
to 417 of default_executor.rs), the single-step entry point.  Returns the
emitted hook trace, the updated context and the result. -/
def executeStep (b : Nat → ToolCall → CallBehaviour) (step : SkillStep)
    (ctx : ExecutionContext) :
    List HookEvent × ExecutionContext × Except SkillError StepResult :=
  let lr := execOneStep b ctx.config step ctx
  let ev0 := HookEvent.beforeStep 0 step.name :: lr.1.map RetryEvent.toHook
  match lr.2 with
  | .ok tr =>
      let ctx2 :=
        match tr.1.data with
        | some d => setOutput ctx step.name d
        | none => ctx
      let is_success := tr.1.is_success
      let step_result : StepResult :=
        ⟨step.name, is_success, tr.1.data,
          if is_success then none else tr.1.error, 0, tr.2⟩
      let ev1 := ev0 ++ [HookEvent.afterStep 0 step.name step_result]
      if step_result.success then (ev1, ctx2, .ok step_result)
      else (ev1, ctx2, .error (.execution (step_result.error.getD [])))
  | .error e =>
      let step_result : StepResult := ⟨step.name, false, none, some (errText e), 0, 0⟩
      let ev1 := ev0 ++ [HookEvent.onError e, HookEvent.afterStep 0 step.name step_result]
      (ev1, ctx, .error (.execution (step_result.error.getD [])))

/-- Worker for execute_steps (lines 422 to 541 of default_executor.rs),
iterating over the remaining steps at the given index with the accumulated
step results. -/
def executeStepsAux (b : Nat → Nat → ToolCall → CallBehaviour)
    (config : ExecutionConfig) (total : Nat) :
    List SkillStep → Nat → List (Str × ToolResult) → ExecutionContext →
    List HookEvent × ExecutionContext × Except SkillError SkillResult
  | [], _, step_results, ctx => ([], ctx, .ok ⟨true, step_results, none, none⟩)
  | step :: rest, index, step_results, ctx =>
      let lr := execOneStep (b index) config step ctx
      let ev0 := HookEvent.beforeStep index step.name :: lr.1.map RetryEvent.toHook
      match lr.2 with
      | .ok tr =>
          let sr : StepResult := ⟨step.name, true, tr.1.data, none, 0, tr.2⟩
          let ev1 := ev0 ++ [HookEvent.afterStep index step.name sr]
          let acc2 := step_results ++ [(step.name, tr.1)]
          let ctx2 := setOutput ctx step.name (tr.1.data.getD .null)
          if acc2.length = total then
            (ev1, ctx2, .ok ⟨true, acc2, tr.1.data, none⟩)
          else
            let r := executeStepsAux b config total rest (index + 1) acc2 ctx2
            (ev1 ++ r.1, r.2.1, r.2.2)
      | .error e =>
          let sr := StepResult.failure step.name (errText e) 0
          let ev1 := ev0 ++ [HookEvent.afterStep index step.name sr, HookEvent.onError e]
          if step.continue_on_error then
            let acc2 := step_results ++ [(step.name, toolFailure (errText e))]
            let r := executeStepsAux b config total rest (index + 1) acc2 ctx
            (ev1 ++ r.1, r.2.1, r.2.2)
          else
            match config.timeout.timeout_action with
            | .skip =>
                let acc2 := step_results ++ [(step.name, toolFailure (errText e))]
                let r := executeStepsAux b config total rest (index + 1) acc2 ctx
                (ev1 ++ r.1, r.2.1, r.2.2)
            | .partRes => (ev1, ctx, .ok ⟨false, step_results, none, some (errText e)⟩)
            | .fail => (ev1, ctx, .error e)

/-- Model of DefaultSkillExecutor::execute_steps: run the whole step list
from index zero with an empty accumulator. -/
def executeSteps (b : Nat → Nat → ToolCall → CallBehaviour) (skill : Skill)
    (ctx : ExecutionContext) (config : ExecutionConfig) :
    List HookEvent × ExecutionContext × Except SkillError SkillResult :=
  executeStepsAux b config skill.steps.length skill.steps 0 [] ctx

/-- Synthesized failure result passed to after_skill when execute returns an
error (lines 316 to 321 of default_executor.rs). -/
def synthFailure (e : SkillError) : SkillResult := ⟨false, [], none, some (errText e)⟩

/-- Message of the partial result produced when the skill-level timeout
expires under the Skip or Partial action (line 301 of default_executor.rs). -/
def skillTimeoutText (d : Nat) : Str := sd "Skill timed out after " ++ durStr d

/-- Model of DefaultSkillExecutor::execute (lines 266 to 327 of
default_executor.rs).  The interrupt argument models the skill-level
timeout race: none means the step loop finished within the budget; some k
means the timeout fired while the loop was still running, at which point
the first k events of the loop had been emitted and its result is
discarded.  Returns the full hook trace and the call result. -/
def execute (b : Nat → Nat → ToolCall → CallBehaviour) (interrupt : Option Nat)
    (skill : Skill) (ctx : ExecutionContext) :
    List HookEvent × Except SkillError SkillResult :=
  let config := ctx.config
  let skill_timeout := config.timeout.skill_timeout
  let inner := executeSteps b skill ctx config
  let body : List HookEvent × Except SkillError SkillResult :=
    match interrupt with
    | none => (inner.1, inner.2.2)
    | some k =>
        match config.timeout.timeout_action with
        | .fail =>
            let e := SkillError.skillTimeout skill_timeout
            (inner.1.take k ++ [HookEvent.onError e], .error e)
        | .skip =>
            (inner.1.take k, .ok ⟨false, [], none, some (skillTimeoutText skill_timeout)⟩)
        | .partRes =>
            (inner.1.take k, .ok ⟨false, [], none, some (skillTimeoutText skill_timeout)⟩)
  match body.2 with
  | .ok r =>
      (HookEvent.beforeSkill skill.name :: (body.1 ++ [HookEvent.afterSkill skill.name r]),
        body.2)
  | .error e =>
      (HookEvent.beforeSkill skill.name ::
          (body.1 ++ [HookEvent.onError e, HookEvent.afterSkill skill.name (synthFailure e)]),
        body.2)

/-! Supporting lemmas about the string primitives, used by the claims about
variable substitution. -/

/-- Starting with the double opening brace is decided by the first two
characters. -/
theorem hasStart_braces (l : Str) : hasStart ['{', '{'] ('{' :: '{' :: l) = true := rfl

/-- A string of placeholder shape ends with the double closing brace. -/
theorem hasEnd_braces (l : Str) :
    hasEnd ['}', '}'] ('{' :: '{' :: (l ++ ['}', '}'])) = true := by
  simp [hasEnd, List.reverse_append, hasStart]

/-- Extracting the inner text of a placeholder-shaped string gives back the
key. -/
theorem innerExtract (name : Str) :
    ((placeholder name).drop 2).take ((placeholder name).length - 4) = name := by
  have hlen : (placeholder name).length - 4 = name.length := by
    simp [placeholder]
  rw [hlen]
  simp only [placeholder, List.drop_succ_cons, List.drop_zero]
  exact List.take_left name ['}', '}']

/-- A pattern whose first character does not occur in the subject is not a
substring of it. -/
theorem not_containsSub_of_head_not_mem (c : Char) (p s : Str) (h : c ∉ s) :
    containsSub (c :: p) s = false := by
  induction s with
  | nil => rfl
  | cons a as ih =>
      have hca : c ≠ a := fun hc => h (hc ▸ List.mem_cons_self a as)
      have has : c ∉ as := fun hc => h (List.mem_cons_of_mem a hc)
      simp [containsSub, hasStart, ih has]
      intro hab
      exact absurd hab hca

/-- Interpolation over a string containing no placeholder of any bound
variable leaves the string unchanged. -/
theorem interpolate_id (vars : List (Str × Value)) (s : Str)
    (h : ∀ kv ∈ vars, containsSub (placeholder kv.1) s = false) :
    interpolate vars s = s := by
  induction vars with
  | nil => rfl
  | cons kv rest ih =>
      have hh := h kv (List.mem_cons_self kv rest)
      have ht : ∀ p ∈ rest, containsSub (placeholder p.1) s = false :=
        fun p hp => h p (List.mem_cons_of_mem kv hp)
      simp only [interpolate, List.foldl_cons, hh] at *
      simpa [interpolate, hh] using ih ht

/-- The array recursion of substitute_value is an elementwise map. -/
theorem substituteList_eq_map (vars : List (Str × Value)) (xs : List Value) :
    substituteList vars xs = xs.map (substituteValue vars) := by
  induction xs with
  | nil => rfl
  | cons v vs ih => simp [substituteList, ih]

/-- The object recursion of substitute_value maps over every entry value. -/
theorem substituteObj_eq_map (vars : List (Str × Value)) (kvs : List (Str × Value)) :
    substituteObj vars kvs = kvs.map (fun kv => (kv.1, substituteValue vars kv.2)) := by
  induction kvs with
  | nil => rfl
  | cons p t ih =>
      obtain ⟨k, v⟩ := p
      simp [substituteObj, ih]

/-- A raw whole-placeholder resolution succeeds on any string that trims to
a placeholder over a brace-free, self-trimmed, bound key. -/
theorem rawResolve_of_placeholder (vars : List (Str × Value)) (s name : Str) (v : Value)
    (htrim : trimL s = placeholder name) (hlb : '{' ∉ name) (hrb : '}' ∉ name)
    (htn : trimL name = name) (hlook : lookupA vars name = some v) :
    rawResolve vars s = some v := by
  unfold rawResolve
  rw [htrim]
  rw [if_pos ⟨by rw [placeholder]; exact hasStart_braces _, by rw [placeholder]; exact hasEnd_braces _⟩]
  rw [innerExtract]
  rw [if_pos ⟨not_containsSub_of_head_not_mem _ _ _ hlb, not_containsSub_of_head_not_mem _ _ _ hrb⟩]
  rw [htn, hlook]

/-- Variables used by the divergence example of the specification: v bound
to a one-entry object. -/
def exVars : List (Str × Value) := [(sd "v", .obj [(sd "a", .num 1)])]

/-- The placeholder text referring to the variable v. -/
def phV : Str := ['{', '{', 'v', '}', '}']

/-- C1: substitute_value follows the dual policy.  A string trimming to
exactly one placeholder over a bound name resolves to the raw bound value
preserving its type; any other string is handled by textual interpolation,
with each bound placeholder occurrence replaced by the display form of the
value and the result staying a string; strings with no resolvable
placeholder are left untouched rather than raising an error; arrays and
objects are recursed over every element and entry; non-string scalars pass
through unchanged.  The last two conjuncts are the divergence example of
the specification: a sole placeholder bound to an object is raw-replaced,
an embedded placeholder is replaced by the serialized JSON text. -/
theorem substitute_value_dual_policy (vars : List (Str × Value)) :
    (∀ s name v, trimL s = placeholder name → '{' ∉ name → '}' ∉ name →
      trimL name = name → lookupA vars name = some v →
      substituteValue vars (.str s) = v) ∧
    (∀ s, rawResolve vars s = none →
      substituteValue vars (.str s) = .str (interpolate vars s)) ∧
    (∀ s, rawResolve vars s = none →
      (∀ kv ∈ vars, containsSub (placeholder kv.1) s = false) →
      substituteValue vars (.str s) = .str s) ∧
    (substituteValue vars .null = .null) ∧
    (∀ bv : Bool, substituteValue vars (.bool bv) = .bool bv) ∧
    (∀ n : Int, substituteValue vars (.num n) = .num n) ∧
    (∀ xs, substituteValue vars (.arr xs) = .arr (xs.map (substituteValue vars))) ∧
    (∀ kvs, substituteValue vars (.obj kvs) =
      .obj (kvs.map (fun kv => (kv.1, substituteValue vars kv.2)))) ∧
    (substituteValue exVars (.obj [(sd "x", .str phV)]) =
      .obj [(sd "x", .obj [(sd "a", .num 1)])]) ∧
    (substituteValue exVars (.obj [(sd "x", .str (sd "val=" ++ phV))]) =
      .obj [(sd "x", .str (sd "val=" ++ ['{', '"', 'a', '"', ':', '1', '}']))]) := by
  refine ⟨?_, ?_, ?_, rfl, fun _ => rfl, fun _ => rfl, ?_, ?_, rfl, rfl⟩
  · intro s name v htrim hlb hrb htn hlook
    simp only [substituteValue, substString,
      rawResolve_of_placeholder vars s name v htrim hlb hrb htn hlook]
  · intro s hnone
    simp only [substituteValue, substString, hnone]
  · intro s hnone hno
    simp only [substituteValue, substString, hnone, interpolate_id vars s hno]
  · intro xs
    simp only [substituteValue, substituteList_eq_map]
  · intro kvs
    simp only [substituteValue, substituteObj_eq_map]

/-- Witness for C1: a concrete whole-placeholder string with surrounding
whitespace resolves to the raw bound number. -/
theorem substitute_value_dual_policy_witness :
    substituteValue [(sd "v", .num 7)] (.str (' ' :: (phV ++ [' ']))) = .num 7 :=
  (substitute_value_dual_policy [(sd "v", .num 7)]).1 (' ' :: (phV ++ [' '])) (sd "v") (.num 7)
    (by decide) (by decide) (by decide) (by decide) rfl

/-! Claims about the retry policy. -/

/-- Retry configuration witnessing the failure of the exponential recurrence
at attempt 33: unit initial delay, a max delay large enough not to cap. -/
def c5cfg : RetryConfig := ⟨0, 1, 2 ^ 32, .exponential, []⟩

/-- C5 counterexample: at attempt 32 the u32 saturating power saturates, so
the delay of attempt 33 is not min of max_delay and twice the delay of
attempt 32. -/
theorem calculate_delay_exponential_recurrence_cex :
    calculate_delay c5cfg 33 0 ≠ min c5cfg.max_delay (2 * calculate_delay c5cfg 32 0) := by
  decide

/-- C5 amended: for exponential backoff the recurrence
delay(attempt+1) = min(max_delay, 2 delay(attempt)) and the closed form
delay(attempt) = min(max_delay, initial_delay * 2 ^ (attempt-1)) hold for
every attempt between 1 and 31; beyond that the u32 exponent saturates. -/
theorem calculate_delay_exponential_recurrence_amended (config : RetryConfig)
    (hb : config.backoff = .exponential) (attempt : Nat)
    (h1 : 1 ≤ attempt) (h2 : attempt ≤ 31) (j : Nat) :
    calculate_delay config (attempt + 1) j =
      min config.max_delay (2 * calculate_delay config attempt j) ∧
    calculate_delay config attempt j =
      min config.max_delay (config.initial_delay * 2 ^ (attempt - 1)) := by
  have e1 : (attempt - 1) % 2 ^ 32 = attempt - 1 :=
    Nat.mod_eq_of_lt (lt_of_lt_of_le (by omega : attempt - 1 < 32) (by norm_num))
  have e2 : (attempt + 1 - 1) % 2 ^ 32 = attempt :=
    Nat.mod_eq_of_lt (lt_of_le_of_lt h2 (by norm_num))
  have l1 : attempt - 1 < 32 := by omega
  have l2 : attempt < 32 := by omega
  have hp : (2 : Nat) ^ attempt = 2 * 2 ^ (attempt - 1) := by
    conv_lhs => rw [show attempt = (attempt - 1) + 1 by omega]
    rw [pow_succ, Nat.mul_comm]
  simp only [calculate_delay, hb, e1, e2, if_pos l1, if_pos l2]
  rw [hp, ← Nat.mul_assoc, Nat.mul_comm config.initial_delay 2, Nat.mul_assoc]
  generalize config.initial_delay * 2 ^ (attempt - 1) = A
  constructor <;> omega

/-- Exponential retry configuration used by the C5 witness. -/
def c5wcfg : RetryConfig := ⟨3, durFromMillis 100, durFromSecs 10, .exponential, []⟩

/-- Witness for the amended C5 at attempt 3. -/
theorem calculate_delay_exponential_recurrence_amended_witness :
    calculate_delay c5wcfg 4 0 = min c5wcfg.max_delay (2 * calculate_delay c5wcfg 3 0) ∧
    calculate_delay c5wcfg 3 0 = min c5wcfg.max_delay (c5wcfg.initial_delay * 2 ^ 2) :=
  calculate_delay_exponential_recurrence_amended c5wcfg rfl 3 (by omega) (by omega) 0

/-- Fixed-backoff configuration whose initial delay exceeds its max delay. -/
def c6cfg : RetryConfig := ⟨0, durFromSecs 5, durFromSecs 1, .fixed, []⟩

/-- C6 counterexample: with fixed backoff the delay is still capped by
max_delay, so it differs from initial_delay when max_delay is smaller. -/
theorem calculate_delay_fixed_cex :
    calculate_delay c6cfg 1 0 ≠ c6cfg.initial_delay := by decide

/-- C6 amended: for fixed backoff the delay is the minimum of initial_delay
and max_delay, independent of the attempt number; it equals initial_delay
exactly when initial_delay is at most max_delay. -/
theorem calculate_delay_fixed_amended (mr idl mdl : Nat) (re : List RetryableError)
    (attempt j : Nat) :
    calculate_delay ⟨mr, idl, mdl, .fixed, re⟩ attempt j = min idl mdl := rfl

/-- A prefix match is preserved by mapping a character function over both
pattern and subject. -/
theorem hasStart_map (f : Char → Char) (p s : Str) (h : hasStart p s = true) :
    hasStart (p.map f) (s.map f) = true := by
  induction p generalizing s with
  | nil => simp [hasStart]
  | cons a ps ih =>
      cases s with
      | nil => simp [hasStart] at h
      | cons c cs =>
          simp [hasStart] at h ⊢
          exact ⟨by rw [h.1], ih cs h.2⟩

/-- One-step unfolding of containsSub on the empty subject. -/
theorem containsSub_nil (pat : Str) : containsSub pat [] = (hasStart pat [] || false) := rfl

/-- One-step unfolding of containsSub on a nonempty subject. -/
theorem containsSub_cons (pat : Str) (c : Char) (cs : Str) :
    containsSub pat (c :: cs) = (hasStart pat (c :: cs) || containsSub pat cs) := rfl

/-- Substring containment is preserved by mapping a character function over
both pattern and subject. -/
theorem containsSub_map (f : Char → Char) (p s : Str) (h : containsSub p s = true) :
    containsSub (p.map f) (s.map f) = true := by
  induction s with
  | nil =>
      have h0 : hasStart p [] = true := by simpa [containsSub_nil] using h
      simpa [containsSub_nil] using hasStart_map f p [] h0
  | cons c cs ih =>
      rw [containsSub_cons] at h
      rw [List.map_cons, containsSub_cons]
      rcases Bool.or_eq_true_iff.mp h with hl | hr
      · have := hasStart_map f p (c :: cs) hl
        rw [List.map_cons] at this
        exact Bool.or_eq_true_iff.mpr (Or.inl this)
      · exact Bool.or_eq_true_iff.mpr (Or.inr (ih hr))

/-- Containment of the digit string 429 survives lowercasing. -/
theorem containsSub_429_lower (msg : Str) (h : containsSub (sd "429") msg = true) :
    containsSub (sd "429") (toLowerStr msg) = true := by
  have hm := containsSub_map Char.toLower (sd "429") msg h
  have hfix : (sd "429").map Char.toLower = sd "429" := by decide
  rw [hfix] at hm
  exact hm

/-- The lowercased message matches none of the timeout, server error or
network vocabularies of is_error_retryable. -/
def noOtherCategoryMatch (msg : Str) : Prop :=
  containsSub (sd "timeout") (toLowerStr msg) = false ∧
  containsSub (sd "timed out") (toLowerStr msg) = false ∧
  containsSub (sd "500") (toLowerStr msg) = false ∧
  containsSub (sd "502") (toLowerStr msg) = false ∧
  containsSub (sd "503") (toLowerStr msg) = false ∧
  containsSub (sd "504") (toLowerStr msg) = false ∧
  containsSub (sd "internal server error") (toLowerStr msg) = false ∧
  containsSub (sd "bad gateway") (toLowerStr msg) = false ∧
  containsSub (sd "service unavailable") (toLowerStr msg) = false ∧
  containsSub (sd "connection") (toLowerStr msg) = false ∧
  containsSub (sd "network") (toLowerStr msg) = false ∧
  containsSub (sd "dns") (toLowerStr msg) = false ∧
  containsSub (sd "resolve") (toLowerStr msg) = false ∧
  containsSub (sd "unreachable") (toLowerStr msg) = false

/-- Configuration with only the timeout category enabled, used to refute
the claimed equivalence. -/
def c7cfg : RetryConfig := ⟨0, 0, 0, .fixed, [.timeout]⟩

/-- C7 counterexample: a message containing 429 and also the word timeout is
retryable under a configuration with neither RateLimit nor All enabled, so
the claimed equivalence fails in the only-if direction. -/
theorem is_error_retryable_429_iff_cex :
    is_error_retryable (sd "429 timeout") c7cfg = true ∧
    c7cfg.retryable_errors.contains .rateLimit = false ∧
    c7cfg.retryable_errors.contains .all = false := by decide

/-- C7 amended: for a message containing 429, enabling RateLimit or All
makes it retryable; the claimed equivalence holds under the additional
hypothesis that the message matches no other category vocabulary. -/
theorem is_error_retryable_429_amended (config : RetryConfig) (msg : Str)
    (h429 : containsSub (sd "429") msg = true) :
    ((config.retryable_errors.contains .rateLimit = true ∨
      config.retryable_errors.contains .all = true) →
      is_error_retryable msg config = true) ∧
    (noOtherCategoryMatch msg →
      (is_error_retryable msg config = true ↔
        (config.retryable_errors.contains .rateLimit = true ∨
         config.retryable_errors.contains .all = true))) := by
  have hlow : containsSub (sd "429") (toLowerStr msg) = true := containsSub_429_lower msg h429
  have hfwd : (config.retryable_errors.contains .rateLimit = true ∨
      config.retryable_errors.contains .all = true) →
      is_error_retryable msg config = true := by
    rintro (hrl | hall)
    · by_cases hA : config.retryable_errors.contains .all
      · simp [is_error_retryable, hA]
      · simp [is_error_retryable, hA, hrl, hlow]
    · simp [is_error_retryable, hall]
  refine ⟨hfwd, fun hno => ⟨?_, hfwd⟩⟩
  obtain ⟨ht1, ht2, h500, h502, h503, h504, hise, hbg, hsu, hconn, hnet, hdns, hres, hunr⟩ := hno
  intro htrue
  by_cases hA : config.retryable_errors.contains .all
  · exact Or.inr hA
  · by_cases hrl : config.retryable_errors.contains .rateLimit
    · exact Or.inl hrl
    · exfalso
      simp [is_error_retryable, hA, hrl, ht1, ht2, h500, h502, h503, h504,
        hise, hbg, hsu, hconn, hnet, hdns, hres, hunr] at htrue

/-- Witness for the amended C7: an http 429 message is retryable under the
default configuration, which enables RateLimit. -/
theorem is_error_retryable_429_amended_witness :
    is_error_retryable (sd "http 429") defaultRetryConfig = true :=
  (is_error_retryable_429_amended defaultRetryConfig (sd "http 429") (by decide)).1
    (Or.inl (by decide))

/-! Claims about per-step configuration overrides and error continuation. -/

/-- Replace the global step timeout of a context configuration. -/
def setStepTimeout (ctx : ExecutionContext) (v : Nat) : ExecutionContext :=
  { ctx with config := { ctx.config with timeout :=
      { ctx.config.timeout with step_timeout := v } } }

/-- Replace the global retry count of a context configuration. -/
def setMaxRetries (ctx : ExecutionContext) (mr : Nat) : ExecutionContext :=
  { ctx with config := { ctx.config with retry :=
      { ctx.config.retry with max_retries := mr } } }

/-- Transport oracle for the override scenario: every call takes 100ms and
succeeds. -/
def c8transport : Nat → Nat → ToolCall → CallBehaviour :=
  fun _ _ _ => ⟨durFromMillis 100, .ok (toolSuccess (.num 1))⟩

/-- Context whose global step timeout is 10ms. -/
def c8ctx : ExecutionContext :=
  ⟨[], [],
    ⟨⟨durFromSecs 300, durFromMillis 10, durFromSecs 30, .fail⟩, defaultRetryConfig⟩, []⟩

/-- One-step skill whose step overrides the timeout to one second. -/
def c8skillOverride : Skill :=
  ⟨sd "s", sd "", [], [⟨sd "s1", sd "t1", .null, false, some 1, some 0⟩]⟩

/-- The same skill without the timeout override. -/
def c8skillNoOverride : Skill :=
  ⟨sd "s", sd "", [], [⟨sd "s1", sd "t1", .null, false, none, some 0⟩]⟩

/-- C8: the effective step timeout is the timeout_secs override of the step
when present, otherwise the configured step_timeout, and the effective retry
count is the max_retries override of the step when present, otherwise the
configured max_retries.  Conjunct one: a step carrying a timeout override
behaves (same hook trace, same result, same recorded outputs) exactly as the
override-free step under a configuration whose step_timeout is that
override, whatever the configured step_timeout was.  Conjunct two: the same
substitution property for max_retries.  Conjuncts three and four: with a
10ms global step timeout and a tool taking 100ms, the step with a one
second override succeeds end to end, while the override-free step times
out. -/
theorem effective_timeout_and_retry_overrides :
    (∀ (b : Nat → ToolCall → CallBehaviour) (step : SkillStep) (ctx : ExecutionContext)
        (t : Nat),
      (executeStep b { step with timeout_secs := some t } ctx).1 =
        (executeStep b { step with timeout_secs := none }
          (setStepTimeout ctx (durFromSecs t))).1 ∧
      (executeStep b { step with timeout_secs := some t } ctx).2.2 =
        (executeStep b { step with timeout_secs := none }
          (setStepTimeout ctx (durFromSecs t))).2.2 ∧
      (executeStep b { step with timeout_secs := some t } ctx).2.1.outputs =
        (executeStep b { step with timeout_secs := none }
          (setStepTimeout ctx (durFromSecs t))).2.1.outputs) ∧
    (∀ (b : Nat → ToolCall → CallBehaviour) (step : SkillStep) (ctx : ExecutionContext)
        (mr : Nat),
      (executeStep b { step with max_retries := some mr } ctx).1 =
        (executeStep b { step with max_retries := none } (setMaxRetries ctx mr)).1 ∧
      (executeStep b { step with max_retries := some mr } ctx).2.2 =
        (executeStep b { step with max_retries := none } (setMaxRetries ctx mr)).2.2 ∧
      (executeStep b { step with max_retries := some mr } ctx).2.1.outputs =
        (executeStep b { step with max_retries := none } (setMaxRetries ctx mr)).2.1.outputs) ∧
    (execute c8transport none c8skillOverride c8ctx).2 =
      .ok ⟨true, [(sd "s1", toolSuccess (.num 1))], some (.num 1), none⟩ ∧
    (execute c8transport none c8skillNoOverride c8ctx).2 =
      .error (.stepTimeout (sd "s1") (durFromMillis 10)) := by
  refine ⟨?_, ?_, rfl, rfl⟩
  · intro b step ctx t
    obtain ⟨i, o, ⟨⟨sk, st, tl, ta⟩, r⟩, m⟩ := ctx
    refine ⟨?_, ?_, ?_⟩ <;>
    · simp [executeStep, execOneStep, setStepTimeout, ctxVariables, setOutput]
      repeat' split
      all_goals rfl
  · intro b step ctx mr
    obtain ⟨i, o, ⟨⟨sk, st, tl, ta⟩, r⟩, m⟩ := ctx
    obtain ⟨rmr, rid, rmd, rb, rre⟩ := r
    refine ⟨?_, ?_, ?_⟩ <;>
    · simp [executeStep, execOneStep, setMaxRetries, ctxVariables, setOutput]
      repeat' split
      all_goals rfl

/-- Transport oracle for the continuation scenario: the first step always
fails, any later step succeeds with the number seven. -/
def c9transport : Nat → Nat → ToolCall → CallBehaviour := fun i _ _ =>
  if i = 0 then ⟨0, .error (sd "boom")⟩ else ⟨0, .ok (toolSuccess (.num 7))⟩

/-- Two-step skill whose first step tolerates errors and retries nothing. -/
def c9skill : Skill :=
  ⟨sd "demo", sd "d", [],
    [⟨sd "step1", sd "t1", .null, true, none, some 0⟩,
     ⟨sd "step2", sd "t2", .null, false, none, some 0⟩]⟩

/-- A fresh context with the default configuration. -/
def baseCtx : ExecutionContext := ⟨[], [], defaultExecutionConfig, []⟩

/-- C9: with step1 always failing, continue_on_error set and no retries,
followed by a succeeding step2, execute returns Ok with overall success,
exactly two step results, a failure recorded for step1 and a success for
step2. -/
theorem continue_on_error_records_failure_and_proceeds :
    ∃ r, (execute c9transport none c9skill baseCtx).2 = .ok r ∧
      r.success = true ∧
      r.step_results.length = 2 ∧
      (r.step_results.getD 0 default).1 = sd "step1" ∧
      (r.step_results.getD 0 default).2.success = false ∧
      (r.step_results.getD 1 default).1 = sd "step2" ∧
      (r.step_results.getD 1 default).2.success = true :=
  ⟨⟨true,
      [(sd "step1", toolFailure (errText (.retryExhausted (sd "step1") 1 (sd "boom")))),
       (sd "step2", toolSuccess (.num 7))],
      some (.num 7), none⟩,
    rfl, rfl, rfl, rfl, rfl, rfl, rfl⟩

/-! Claims about the skill-level control flow: traces, timeout handling
and error propagation. -/

/-- Test for the after_skill hook event. -/
def isAfterSkillEv : HookEvent → Bool
  | .afterSkill _ _ => true
  | _ => false

/-- The step loop never fires the after_skill hook. -/
theorem executeStepsAux_no_afterSkill (b : Nat → Nat → ToolCall → CallBehaviour)
    (cfg : ExecutionConfig) (total : Nat) :
    ∀ (steps : List SkillStep) (index : Nat) (acc : List (Str × ToolResult))
      (ctx : ExecutionContext) (e : HookEvent),
      e ∈ (executeStepsAux b cfg total steps index acc ctx).1 → isAfterSkillEv e = false := by
  intro steps
  induction steps with
  | nil => intro index acc ctx e he; simp [executeStepsAux] at he
  | cons step rest ih =>
      intro index acc ctx e he
      simp only [executeStepsAux] at he
      split at he
      · split at he
        · simp only [List.cons_append, List.nil_append, List.mem_cons, List.mem_append,
            List.mem_map, List.mem_singleton, List.not_mem_nil, or_false, false_or] at he
          rcases he with rfl | (⟨x, _, rfl⟩ | rfl)
          · rfl
          · cases x <;> rfl
          · rfl
        · simp only [List.cons_append, List.nil_append, List.mem_cons, List.mem_append,
            List.mem_map, List.mem_singleton, List.not_mem_nil, or_false, false_or] at he
          rcases he with rfl | (⟨x, _, rfl⟩ | rfl) | he
          · rfl
          · cases x <;> rfl
          · rfl
          · exact ih _ _ _ _ he
      · split at he
        · simp only [List.cons_append, List.nil_append, List.mem_cons, List.mem_append,
            List.mem_map, List.mem_singleton, List.not_mem_nil, or_false, false_or] at he
          rcases he with rfl | (⟨x, _, rfl⟩ | rfl | rfl) | he
          · rfl
          · cases x <;> rfl
          · rfl
          · rfl
          · exact ih _ _ _ _ he
        · split at he
          · simp only [List.cons_append, List.nil_append, List.mem_cons, List.mem_append,
              List.mem_map, List.mem_singleton, List.not_mem_nil, or_false, false_or] at he
            rcases he with rfl | (⟨x, _, rfl⟩ | rfl | rfl) | he
            · rfl
            · cases x <;> rfl
            · rfl
            · rfl
            · exact ih _ _ _ _ he
          · simp only [List.cons_append, List.nil_append, List.mem_cons, List.mem_append,
              List.mem_map, List.mem_singleton, List.not_mem_nil, or_false, false_or] at he
            rcases he with rfl | (⟨x, _, rfl⟩ | rfl | rfl)
            · rfl
            · cases x <;> rfl
            · rfl
            · rfl
          · simp only [List.cons_append, List.nil_append, List.mem_cons, List.mem_append,
              List.mem_map, List.mem_singleton, List.not_mem_nil, or_false, false_or] at he
            rcases he with rfl | (⟨x, _, rfl⟩ | rfl | rfl)
            · rfl
            · cases x <;> rfl
            · rfl
            · rfl

/-- C3: if the whole step loop exceeds the configured skill timeout inside
execute (the interruption fires), then under the Fail action the call
returns the SkillTimeout error after firing the on_error hook, and under
the Skip or Partial action it returns Ok with success false, an explanatory
error message and an empty step_results list: results of steps already
completed in that run are not recoverable. -/
theorem skill_timeout_outcomes (b : Nat → Nat → ToolCall → CallBehaviour)
    (k : Nat) (skill : Skill) (ctx : ExecutionContext) :
    (ctx.config.timeout.timeout_action = .fail →
      (execute b (some k) skill ctx).2 =
        .error (.skillTimeout ctx.config.timeout.skill_timeout) ∧
      HookEvent.onError (.skillTimeout ctx.config.timeout.skill_timeout) ∈
        (execute b (some k) skill ctx).1) ∧
    (ctx.config.timeout.timeout_action = .skip ∨
        ctx.config.timeout.timeout_action = .partRes →
      (execute b (some k) skill ctx).2 =
        .ok ⟨false, [], none, some (skillTimeoutText ctx.config.timeout.skill_timeout)⟩) := by
  constructor
  · intro hf
    constructor
    · simp [execute, hf]
    · simp [execute, hf, List.mem_cons, List.mem_append]
  · rintro (hs | hp)
    · simp [execute, hs]
    · simp [execute, hp]

/-- Skill with no steps, used by closed witnesses. -/
def emptySkill : Skill := ⟨sd "e", sd "", [], []⟩

/-- Transport oracle whose calls are instantaneous successes. -/
def trivialTransport : Nat → Nat → ToolCall → CallBehaviour :=
  fun _ _ _ => ⟨0, .ok (toolSuccess .null)⟩

/-- Witness for C3: under the default configuration (Fail action) an
interrupted run returns the SkillTimeout error and fired on_error. -/
theorem skill_timeout_outcomes_witness :
    (execute trivialTransport (some 0) emptySkill baseCtx).2 =
      .error (.skillTimeout (durFromSecs 300)) ∧
    HookEvent.onError (.skillTimeout (durFromSecs 300)) ∈
      (execute trivialTransport (some 0) emptySkill baseCtx).1 :=
  (skill_timeout_outcomes trivialTransport 0 emptySkill baseCtx).1 rfl

/-- A trace none of whose events is after_skill filters to nothing. -/
theorem filter_afterSkill_nil (l : List HookEvent)
    (h : ∀ e ∈ l, isAfterSkillEv e = false) : l.filter isAfterSkillEv = [] := by
  induction l with
  | nil => rfl
  | cons a t ih =>
      rw [List.filter_cons, h a (List.mem_cons_self a t)]
      exact ih (fun e he => h e (List.mem_cons_of_mem a he))

/-- C10: in every execute call the before_skill hook fires before any step
hook (it is the head of the trace), and the after_skill hook fires exactly
once per call regardless of outcome, receiving the real SkillResult when
the call returns Ok and a synthesized failure result when it returns an
error. -/
theorem hook_ordering (b : Nat → Nat → ToolCall → CallBehaviour) (interrupt : Option Nat)
    (skill : Skill) (ctx : ExecutionContext) :
    (execute b interrupt skill ctx).1.head? = some (.beforeSkill skill.name) ∧
    ((execute b interrupt skill ctx).1.filter isAfterSkillEv).length = 1 ∧
    (∀ r, (execute b interrupt skill ctx).2 = .ok r →
      HookEvent.afterSkill skill.name r ∈ (execute b interrupt skill ctx).1) ∧
    (∀ e, (execute b interrupt skill ctx).2 = .error e →
      HookEvent.afterSkill skill.name (synthFailure e) ∈ (execute b interrupt skill ctx).1) := by
  have hno : ∀ e ∈ (executeSteps b skill ctx ctx.config).1, isAfterSkillEv e = false :=
    fun e he =>
      executeStepsAux_no_afterSkill b ctx.config skill.steps.length skill.steps 0 [] ctx e he
  have hnoT : ∀ k, ∀ e ∈ (executeSteps b skill ctx ctx.config).1.take k,
      isAfterSkillEv e = false :=
    fun k e he => hno e (List.take_subset k _ he)
  have hfil : (executeSteps b skill ctx ctx.config).1.filter isAfterSkillEv = [] :=
    filter_afterSkill_nil _ hno
  have hfilT : ∀ k, ((executeSteps b skill ctx ctx.config).1.take k).filter isAfterSkillEv = [] :=
    fun k => filter_afterSkill_nil _ (hnoT k)
  rcases interrupt with _ | k
  · rcases hres : (executeSteps b skill ctx ctx.config).2.2 with er | r
    · refine ⟨?_, ?_, ?_, ?_⟩
      · simp [execute, hres]
      · simp [execute, hres, List.filter_append, hfil, isAfterSkillEv]
      · intro r' hr'
        simp only [execute, hres] at hr'
        cases hr'
      · intro e' he'
        simp only [execute, hres] at he' ⊢
        cases he'
        simp [List.mem_append]
    · refine ⟨?_, ?_, ?_, ?_⟩
      · simp [execute, hres]
      · simp [execute, hres, List.filter_append, hfil, isAfterSkillEv]
      · intro r' hr'
        simp only [execute, hres] at hr' ⊢
        cases hr'
        simp [List.mem_append]
      · intro e' he'
        simp only [execute, hres] at he'
        cases he'
  · rcases hact : ctx.config.timeout.timeout_action with _ | _ | _
    · refine ⟨?_, ?_, ?_, ?_⟩
      · simp [execute, hact]
      · simp [execute, hact, List.filter_append, hfilT, isAfterSkillEv]
      · intro r' hr'
        simp only [execute, hact] at hr'
        cases hr'
      · intro e' he'
        simp only [execute, hact] at he' ⊢
        cases he'
        simp [List.mem_append]
    · refine ⟨?_, ?_, ?_, ?_⟩
      · simp [execute, hact]
      · simp [execute, hact, List.filter_append, hfilT, isAfterSkillEv]
      · intro r' hr'
        simp only [execute, hact] at hr' ⊢
        cases hr'
        simp [List.mem_append]
      · intro e' he'
        simp only [execute, hact] at he'
        cases he'
    · refine ⟨?_, ?_, ?_, ?_⟩
      · simp [execute, hact]
      · simp [execute, hact, List.filter_append, hfilT, isAfterSkillEv]
      · intro r' hr'
        simp only [execute, hact] at hr' ⊢
        cases hr'
        simp [List.mem_append]
      · intro e' he'
        simp only [execute, hact] at he'
        cases he'

/-- Witness for C10: on a concrete successful run the trace starts with
before_skill and contains after_skill with the real result. -/
theorem hook_ordering_witness :
    (execute trivialTransport none emptySkill baseCtx).1.head? =
      some (.beforeSkill (sd "e")) ∧
    HookEvent.afterSkill (sd "e") ⟨true, [], none, none⟩ ∈
      (execute trivialTransport none emptySkill baseCtx).1 :=
  ⟨(hook_ordering trivialTransport none emptySkill baseCtx).1,
    (hook_ordering trivialTransport none emptySkill baseCtx).2.2.1 ⟨true, [], none, none⟩ rfl⟩

/-- The trace contains an after_step event at the given step index whose
StepResult is a failure. -/
def failingAfterStepAt (ev : List HookEvent) (i : Nat) : Prop :=
  ∃ nm sr, HookEvent.afterStep i nm sr ∈ ev ∧ sr.success = false

/-- No failing after_step event occurs in an empty trace. -/
theorem failingAfterStepAt_nil (j : Nat) : ¬ failingAfterStepAt [] j := by
  simp [failingAfterStepAt]

/-- Failing after_step events distribute over trace concatenation. -/
theorem failingAfterStepAt_append (a c : List HookEvent) (j : Nat) :
    failingAfterStepAt (a ++ c) j ↔ failingAfterStepAt a j ∨ failingAfterStepAt c j := by
  constructor
  · rintro ⟨nm, sr, hm, hs⟩
    rcases List.mem_append.mp hm with h | h
    · exact Or.inl ⟨nm, sr, h, hs⟩
    · exact Or.inr ⟨nm, sr, h, hs⟩
  · rintro (⟨nm, sr, hm, hs⟩ | ⟨nm, sr, hm, hs⟩)
    · exact ⟨nm, sr, List.mem_append.mpr (Or.inl hm), hs⟩
    · exact ⟨nm, sr, List.mem_append.mpr (Or.inr hm), hs⟩

/-- A before_step event contributes no failing after_step event. -/
theorem failingAfterStepAt_beforeStep (i : Nat) (nm : Str) (l : List HookEvent) (j : Nat) :
    failingAfterStepAt (HookEvent.beforeStep i nm :: l) j ↔ failingAfterStepAt l j := by
  constructor
  · rintro ⟨nm', sr, hm, hs⟩
    rcases List.mem_cons.mp hm with h | h
    · exact absurd h (by simp)
    · exact ⟨nm', sr, h, hs⟩
  · rintro ⟨nm', sr, hm, hs⟩
    exact ⟨nm', sr, List.mem_cons_of_mem _ hm, hs⟩

/-- An on_error event contributes no failing after_step event. -/
theorem failingAfterStepAt_onError (er : SkillError) (l : List HookEvent) (j : Nat) :
    failingAfterStepAt (HookEvent.onError er :: l) j ↔ failingAfterStepAt l j := by
  constructor
  · rintro ⟨nm', sr, hm, hs⟩
    rcases List.mem_cons.mp hm with h | h
    · exact absurd h (by simp)
    · exact ⟨nm', sr, h, hs⟩
  · rintro ⟨nm', sr, hm, hs⟩
    exact ⟨nm', sr, List.mem_cons_of_mem _ hm, hs⟩

/-- Retry-loop events contribute no failing after_step event. -/
theorem failingAfterStepAt_map (lev : List RetryEvent) (l : List HookEvent) (j : Nat) :
    failingAfterStepAt (lev.map RetryEvent.toHook ++ l) j ↔ failingAfterStepAt l j := by
  induction lev with
  | nil => simp
  | cons x t ih =>
      rw [List.map_cons, List.cons_append]
      cases x with
      | retry s a m =>
          rw [show RetryEvent.toHook (.retry s a m) = .onRetry s a m from rfl]
          constructor
          · rintro ⟨nm', sr, hm, hs⟩
            rcases List.mem_cons.mp hm with h | h
            · exact absurd h (by simp)
            · exact ih.mp ⟨nm', sr, h, hs⟩
          · intro h
            obtain ⟨nm', sr, hm, hs⟩ := ih.mpr h
            exact ⟨nm', sr, List.mem_cons_of_mem _ hm, hs⟩
      | timeoutHook s d =>
          rw [show RetryEvent.toHook (.timeoutHook s d) = .onTimeout s d from rfl]
          constructor
          · rintro ⟨nm', sr, hm, hs⟩
            rcases List.mem_cons.mp hm with h | h
            · exact absurd h (by simp)
            · exact ih.mp ⟨nm', sr, h, hs⟩
          · intro h
            obtain ⟨nm', sr, hm, hs⟩ := ih.mpr h
            exact ⟨nm', sr, List.mem_cons_of_mem _ hm, hs⟩

/-- Characterization of a failing after_step event at a cons cell holding
an after_step event. -/
theorem failingAfterStepAt_afterStep (i : Nat) (nm : Str) (sr : StepResult)
    (l : List HookEvent) (j : Nat) :
    failingAfterStepAt (HookEvent.afterStep i nm sr :: l) j ↔
      (j = i ∧ sr.success = false) ∨ failingAfterStepAt l j := by
  constructor
  · rintro ⟨nm', sr', hm, hs⟩
    rcases List.mem_cons.mp hm with h | h
    · obtain ⟨h1, h2, h3⟩ := HookEvent.afterStep.inj h
      exact Or.inl ⟨h1, h3 ▸ hs⟩
    · exact Or.inr ⟨nm', sr', h, hs⟩
  · rintro (⟨rfl, hs⟩ | ⟨nm', sr', hm, hs⟩)
    · exact ⟨nm, sr, List.mem_cons_self _ _, hs⟩
    · exact ⟨nm', sr', List.mem_cons_of_mem _ hm, hs⟩

/-- Characterization of an error escape from the step loop: the loop
propagates an error only under the Fail timeout action, and the erroring
step is the first failing step without continue_on_error; every other step
that failed before it had continue_on_error set. -/
theorem executeStepsAux_error_char (b : Nat → Nat → ToolCall → CallBehaviour)
    (cfg : ExecutionConfig) (total : Nat) :
    ∀ (steps : List SkillStep) (index : Nat) (acc : List (Str × ToolResult))
      (ctx : ExecutionContext) (e : SkillError),
      (executeStepsAux b cfg total steps index acc ctx).2.2 = .error e →
      cfg.timeout.timeout_action = .fail ∧
      ∃ i, index ≤ i ∧ i - index < steps.length ∧
        (steps.getD (i - index) default).continue_on_error = false ∧
        failingAfterStepAt (executeStepsAux b cfg total steps index acc ctx).1 i ∧
        ∀ j, failingAfterStepAt (executeStepsAux b cfg total steps index acc ctx).1 j →
          j ≠ i → index ≤ j ∧ j - index < steps.length ∧
            (steps.getD (j - index) default).continue_on_error = true := by
  intro steps
  induction steps with
  | nil =>
      intro index acc ctx e h
      simp [executeStepsAux] at h
  | cons step rest ih =>
      intro index acc ctx e h
      rcases hq : (execOneStep (b index) cfg step ctx).2 with er | tr
      · by_cases hcoe : step.continue_on_error = true
        · -- failure tolerated by continue_on_error: recursion continues
          have htr : ∀ j,
              failingAfterStepAt (executeStepsAux b cfg total (step :: rest) index acc ctx).1 j ↔
              (j = index ∨ failingAfterStepAt
                (executeStepsAux b cfg total rest (index + 1)
                  (acc ++ [(step.name, toolFailure (errText er))]) ctx).1 j) := by
            intro j
            simp [executeStepsAux, hq, hcoe, List.cons_append, List.nil_append,
              List.append_assoc, failingAfterStepAt_beforeStep, failingAfterStepAt_map,
              failingAfterStepAt_afterStep, failingAfterStepAt_onError, StepResult.failure]
          simp only [executeStepsAux, hq, hcoe, if_true] at h
          obtain ⟨hfail, i, hile, hlt, hcoe0, hfa, hfirst⟩ := ih (index + 1) _ ctx e h
          refine ⟨hfail, i, by omega, by simp; omega, ?_, ?_, ?_⟩
          · have hrw : i - index = (i - (index + 1)) + 1 := by omega
            rw [hrw, List.getD_cons_succ]
            exact hcoe0
          · exact (htr i).mpr (Or.inr hfa)
          · intro j hj hne
            rcases (htr j).mp hj with rfl | hj'
            · exact ⟨le_refl j, by simp, by simpa using hcoe⟩
            · obtain ⟨h1, h2, h3⟩ := hfirst j hj' hne
              refine ⟨by omega, by simp; omega, ?_⟩
              have hrw : j - index = (j - (index + 1)) + 1 := by omega
              rw [hrw, List.getD_cons_succ]
              exact h3
        · rcases hact : cfg.timeout.timeout_action with _ | _ | _
          · -- Fail action: the error propagates here
            have htr : ∀ j,
                failingAfterStepAt
                  (executeStepsAux b cfg total (step :: rest) index acc ctx).1 j ↔ j = index := by
              intro j
              simp [executeStepsAux, hq, hcoe, hact, List.cons_append, List.nil_append,
                List.append_assoc, failingAfterStepAt_beforeStep, failingAfterStepAt_map,
                failingAfterStepAt_afterStep, failingAfterStepAt_onError,
                failingAfterStepAt_nil, StepResult.failure]
            refine ⟨rfl, index, le_refl index, by simp, by simpa using hcoe, ?_, ?_⟩
            · exact (htr index).mpr rfl
            · intro j hj hne
              exact absurd ((htr j).mp hj) hne
          · -- Skip action: recursion continues, but then the recursion
            -- would need the Fail action, contradiction
            simp [executeStepsAux, hq, hcoe, hact] at h
            obtain ⟨hfail, _⟩ := ih (index + 1) _ ctx e h
            exact absurd (hact.symm.trans hfail) (by decide)
          · -- Partial action returns Ok, contradiction
            simp [executeStepsAux, hq, hcoe, hact] at h
      · -- the retry loop succeeded
        by_cases hlen : acc.length + 1 = total
        · simp [executeStepsAux, hq, hlen] at h
        · have htr : ∀ j,
              failingAfterStepAt (executeStepsAux b cfg total (step :: rest) index acc ctx).1 j ↔
              failingAfterStepAt
                (executeStepsAux b cfg total rest (index + 1) (acc ++ [(step.name, tr.1)])
                  (setOutput ctx step.name (tr.1.data.getD .null))).1 j := by
            intro j
            simp [executeStepsAux, hq, hlen, List.cons_append, List.nil_append,
              List.append_assoc, failingAfterStepAt_beforeStep, failingAfterStepAt_map,
              failingAfterStepAt_afterStep, failingAfterStepAt_onError]
          simp [executeStepsAux, hq, hlen] at h
          obtain ⟨hfail, i, hile, hlt, hcoe0, hfa, hfirst⟩ := ih (index + 1) _ _ e h
          refine ⟨hfail, i, by omega, by simp; omega, ?_, ?_, ?_⟩
          · have hrw : i - index = (i - (index + 1)) + 1 := by omega
            rw [hrw, List.getD_cons_succ]
            exact hcoe0
          · exact (htr i).mpr hfa
          · intro j hj hne
            obtain ⟨h1, h2, h3⟩ := hfirst j ((htr j).mp hj) hne
            refine ⟨by omega, by simp; omega, ?_⟩
            have hrw : j - index = (j - (index + 1)) + 1 := by omega
            rw [hrw, List.getD_cons_succ]
            exact h3

/-- A before_skill event contributes no failing after_step event. -/
theorem failingAfterStepAt_beforeSkill (nm : Str) (l : List HookEvent) (j : Nat) :
    failingAfterStepAt (HookEvent.beforeSkill nm :: l) j ↔ failingAfterStepAt l j := by
  constructor
  · rintro ⟨nm', sr, hm, hs⟩
    rcases List.mem_cons.mp hm with h | h
    · exact absurd h (by simp)
    · exact ⟨nm', sr, h, hs⟩
  · rintro ⟨nm', sr, hm, hs⟩
    exact ⟨nm', sr, List.mem_cons_of_mem _ hm, hs⟩

/-- An after_skill event contributes no failing after_step event. -/
theorem failingAfterStepAt_afterSkill (nm : Str) (r : SkillResult) (l : List HookEvent)
    (j : Nat) :
    failingAfterStepAt (HookEvent.afterSkill nm r :: l) j ↔ failingAfterStepAt l j := by
  constructor
  · rintro ⟨nm', sr, hm, hs⟩
    rcases List.mem_cons.mp hm with h | h
    · exact absurd h (by simp)
    · exact ⟨nm', sr, h, hs⟩
  · rintro ⟨nm', sr, hm, hs⟩
    exact ⟨nm', sr, List.mem_cons_of_mem _ hm, hs⟩

/-- C2: execute always yields either an Ok SkillResult or an error, and the
error case occurs only when the Fail timeout action triggers on the
skill-level timeout, or when the very first unretryable failure occurs on a
step without continue_on_error (under the Fail action): any failing step
recorded in the trace other than the erroring one had continue_on_error
set. -/
theorem execute_error_only_on_fail_policy (b : Nat → Nat → ToolCall → CallBehaviour)
    (interrupt : Option Nat) (skill : Skill) (ctx : ExecutionContext) (e : SkillError)
    (h : (execute b interrupt skill ctx).2 = .error e) :
    ((∃ k, interrupt = some k) ∧ ctx.config.timeout.timeout_action = .fail) ∨
    (ctx.config.timeout.timeout_action = .fail ∧
      ∃ i, i < skill.steps.length ∧
        (skill.steps.getD i default).continue_on_error = false ∧
        failingAfterStepAt (execute b interrupt skill ctx).1 i ∧
        ∀ j, failingAfterStepAt (execute b interrupt skill ctx).1 j → j ≠ i →
          j < skill.steps.length ∧ (skill.steps.getD j default).continue_on_error = true) := by
  rcases interrupt with _ | k
  · rcases hres : (executeSteps b skill ctx ctx.config).2.2 with er | r
    · obtain ⟨hfail, i, hle, hlt, hcoe, hfa, hfirst⟩ :=
        executeStepsAux_error_char b ctx.config skill.steps.length skill.steps 0 [] ctx er hres
      have htr : ∀ j, failingAfterStepAt (execute b none skill ctx).1 j ↔
          failingAfterStepAt (executeSteps b skill ctx ctx.config).1 j := by
        intro j
        simp [execute, hres, failingAfterStepAt_beforeSkill, failingAfterStepAt_append,
          failingAfterStepAt_onError, failingAfterStepAt_afterSkill, failingAfterStepAt_nil]
      refine Or.inr ⟨hfail, i, by simpa using hlt, by simpa using hcoe, (htr i).mpr hfa, ?_⟩
      intro j hj hne
      obtain ⟨h1, h2, h3⟩ := hfirst j ((htr j).mp hj) hne
      exact ⟨by simpa using h2, by simpa using h3⟩
    · simp [execute, hres] at h
  · rcases hact : ctx.config.timeout.timeout_action with _ | _ | _
    · exact Or.inl ⟨⟨k, rfl⟩, rfl⟩
    · simp [execute, hact] at h
    · simp [execute, hact] at h

/-- Transport oracle whose calls always fail instantly. -/
def c2transport : Nat → Nat → ToolCall → CallBehaviour := fun _ _ _ => ⟨0, .error (sd "boom")⟩

/-- One-step skill without continue_on_error, used by the C2 witness. -/
def c2skill : Skill := ⟨sd "w", sd "", [], [⟨sd "s", sd "t", .null, false, none, some 0⟩]⟩

/-- Witness for C2 at a concrete failing run under the Fail action. -/
theorem execute_error_only_on_fail_policy_witness :
    ((∃ k, (none : Option Nat) = some k) ∧
      baseCtx.config.timeout.timeout_action = .fail) ∨
    (baseCtx.config.timeout.timeout_action = .fail ∧
      ∃ i, i < c2skill.steps.length ∧
        (c2skill.steps.getD i default).continue_on_error = false ∧
        failingAfterStepAt (execute c2transport none c2skill baseCtx).1 i ∧
        ∀ j, failingAfterStepAt (execute c2transport none c2skill baseCtx).1 j → j ≠ i →
          j < c2skill.steps.length ∧
            (c2skill.steps.getD j default).continue_on_error = true) :=
  execute_error_only_on_fail_policy c2transport none c2skill baseCtx
    (.retryExhausted (sd "s") 1 (sd "boom")) rfl

/-- Transport oracle returning the same instantaneous Ok ToolResult on
every call, whatever its success flag says. -/
def constBehaviour (tr : ToolResult) : Nat → Nat → ToolCall → CallBehaviour :=
  fun _ _ _ => ⟨0, .ok tr⟩

/-- Under the constant oracle the attempt loop succeeds on the first
attempt with zero retries. -/
theorem retryLoop_constBehaviour (tr : ToolResult) (tc : ToolCall) (nm : Str)
    (tmo : Nat) (rc : RetryConfig) (i : Nat) :
    retryLoop (constBehaviour tr i) tc nm tmo rc 1 = ([], .ok (tr, 0)) := by
  simp [retryLoop, retryLoopAux, constBehaviour, Nat.zero_le]

/-- Looking up a freshly inserted key returns the inserted value. -/
theorem lookupA_mapInsert (m : List (Str × Value)) (k : Str) (v : Value) :
    lookupA (mapInsert m k v) k = some v := by
  simp [mapInsert, lookupA]

/-- C4: when the Transport returns Ok carrying a ToolResult whose success
flag is false, the two exposed entry points disagree.  Running the step
through execute records it as successful: the overall result is Ok with
success true, the after_step hook receives a StepResult with success true,
and the step data is stored in the context outputs.  Running the same step
through execute_step classifies it as a failure: the call returns an
Execution error and the after_step hook receives a StepResult with success
false. -/
theorem entry_points_disagree_on_tool_failure (tr : ToolResult) (h : tr.success = false)
    (step : SkillStep) (ctx : ExecutionContext) (sname sdesc : Str) (inputs : List Str) :
    (execute (constBehaviour tr) none ⟨sname, sdesc, inputs, [step]⟩ ctx).2 =
      .ok ⟨true, [(step.name, tr)], tr.data, none⟩ ∧
    HookEvent.afterStep 0 step.name ⟨step.name, true, tr.data, none, 0, 0⟩ ∈
      (execute (constBehaviour tr) none ⟨sname, sdesc, inputs, [step]⟩ ctx).1 ∧
    lookupA (executeSteps (constBehaviour tr) ⟨sname, sdesc, inputs, [step]⟩ ctx
        ctx.config).2.1.outputs step.name = some (tr.data.getD .null) ∧
    (executeStep (constBehaviour tr 0) step ctx).2.2 =
      .error (.execution (tr.error.getD [])) ∧
    HookEvent.afterStep 0 step.name ⟨step.name, false, tr.data, tr.error, 0, 0⟩ ∈
      (executeStep (constBehaviour tr 0) step ctx).1 := by
  refine ⟨?_, ?_, ?_, ?_, ?_⟩
  · simp [execute, executeSteps, executeStepsAux, execOneStep, retryLoop_constBehaviour]
  · simp [execute, executeSteps, executeStepsAux, execOneStep, retryLoop_constBehaviour,
      List.mem_cons, List.mem_append]
  · simp [executeSteps, executeStepsAux, execOneStep, retryLoop_constBehaviour, setOutput,
      lookupA_mapInsert]
  · simp [executeStep, execOneStep, retryLoop_constBehaviour, ToolResult.is_success, h]
  · simp [executeStep, execOneStep, retryLoop_constBehaviour, ToolResult.is_success, h,
      List.mem_cons, List.mem_append]

/-- Failed tool result delivered inside an Ok transport reply. -/
def c4tr : ToolResult := toolFailure (sd "bad")

/-- Plain step used by the C4 witness. -/
def c4step : SkillStep := ⟨sd "s", sd "t", .null, false, none, none⟩

/-- Witness for C4 at a concrete failed tool result. -/
theorem entry_points_disagree_on_tool_failure_witness :
    (execute (constBehaviour c4tr) none ⟨sd "n", sd "d", [], [c4step]⟩ baseCtx).2 =
      .ok ⟨true, [(c4step.name, c4tr)], c4tr.data, none⟩ ∧
    HookEvent.afterStep 0 c4step.name ⟨c4step.name, true, c4tr.data, none, 0, 0⟩ ∈
      (execute (constBehaviour c4tr) none ⟨sd "n", sd "d", [], [c4step]⟩ baseCtx).1 ∧
    lookupA (executeSteps (constBehaviour c4tr) ⟨sd "n", sd "d", [], [c4step]⟩ baseCtx
        baseCtx.config).2.1.outputs c4step.name = some (c4tr.data.getD .null) ∧
    (executeStep (constBehaviour c4tr 0) c4step baseCtx).2.2 =
      .error (.execution (c4tr.error.getD [])) ∧
    HookEvent.afterStep 0 c4step.name ⟨c4step.name, false, c4tr.data, c4tr.error, 0, 0⟩ ∈
      (executeStep (constBehaviour c4tr 0) c4step baseCtx).1 :=
  entry_points_disagree_on_tool_failure c4tr rfl c4step baseCtx (sd "n") (sd "d") []
